import Mathlib

/-!
Verification of the pass-chain execution engine (`test_pipeline.py` /
`run_tests.py` / `data_pipeline.py`) against its natural-language
specification.  Python strings are embedded as `List Char` (the input
lines are produced by line iteration plus `strip()`, so they never
contain a newline character).  Every definition is translated from the
source files; definitions whose name starts with `spec` restate the
specification's words for refinement comparisons.
-/

namespace TP

/-- Python strings, embedded as lists of characters. -/
abbrev PyStr := List Char

/-- Characters matched by the regex class `\s` (ASCII range; the input
lines cannot contain `\n`, `\x0b`, `\x0c` after `strip()`, but we keep
the full class for fidelity). -/
def isPySpace (c : Char) : Bool :=
  c = ' ' || c = '\t' || c = '\n' || c = '\r' || c = '\x0b' || c = '\x0c'

/-- Helper for `hasSlashWsSlash`: after an opening `/`, skip whitespace
and look for a closing `/`. -/
def slashAfterWs : PyStr → Bool
  | [] => false
  | c :: rest => if c = '/' then true else if isPySpace c then slashAfterWs rest else false

/-- Embedding of `re.search(r'/\s*/', s)`: two path separators with only
whitespace between them (used by `_is_path_entry` and `_is_http_url_entry`). -/
def hasSlashWsSlash : PyStr → Bool
  | [] => false
  | c :: rest => (c = '/' && slashAfterWs rest) || hasSlashWsSlash rest

/-- Number of non-overlapping matches of the regex `.tar.bz2` found by
`re.findall(_archive_suf, line)` in `_is_valid_entry`.  Note that
`_archive_suf = '.tar.bz2'` is used as a regex pattern there, so both
dots match an arbitrary character. -/
def countArchiveMatches : PyStr → Nat
  | _ :: 't' :: 'a' :: 'r' :: _ :: 'b' :: 'z' :: '2' :: rest =>
      1 + countArchiveMatches rest
  | _ :: rest => countArchiveMatches rest
  | [] => 0

/-- Number of non-overlapping occurrences of the literal string
`.tar.bz2` (the reading the specification uses: "occurs at most once in
it as a literal substring"). -/
def countLiteralArchive : PyStr → Nat
  | '.' :: 't' :: 'a' :: 'r' :: '.' :: 'b' :: 'z' :: '2' :: rest =>
      1 + countLiteralArchive rest
  | _ :: rest => countLiteralArchive rest
  | [] => 0

/-! ## `urllib.parse.urlparse`, restricted to the fields the engine reads

The engine only reads `r.scheme`, `r.netloc` and `r.path`.  We follow
CPython's `urlsplit`: optional scheme before a `:` (lower-cased, first
character a letter, all characters in the scheme alphabet), a netloc
after `//` delimited by `/?#`, then fragment and query are cut off the
remainder, which is the path.  (The `;params` split of `urlparse` can
never change the emptiness of the three fields read here.) -/

structure UrlParts where
  scheme : PyStr
  netloc : PyStr
  path : PyStr
deriving Repr, DecidableEq

/-- Characters allowed in a URL scheme (`scheme_chars` in CPython). -/
def isSchemeChar (c : Char) : Bool :=
  c.isAlpha || c.isDigit || c = '+' || c = '-' || c = '.'

/-- Split a list at the first occurrence of `c`: returns the parts
before and after it, or `none` when `c` does not occur. -/
def splitAtChar (c : Char) : PyStr → Option (PyStr × PyStr)
  | [] => none
  | x :: xs =>
      if x = c then some ([], xs)
      else (splitAtChar c xs).map (fun p => (x :: p.1, p.2))

/-- Embedding of `_splitnetloc`: the netloc extends up to the first `/`, `?`
or `#`, which stays with the remainder. -/
def splitNetloc : PyStr → PyStr × PyStr
  | [] => ([], [])
  | c :: cs =>
      if c = '/' || c = '?' || c = '#' then ([], c :: cs)
      else
        let (n, r) := splitNetloc cs
        (c :: n, r)

/-- Part of a list before the first occurrence of `c` (the whole list
when `c` is absent); used to drop fragment and query. -/
def beforeChar (c : Char) (s : PyStr) : PyStr :=
  match splitAtChar c s with
  | some p => p.1
  | none => s

/-- Embedding of `urllib.parse.urlparse`, restricted to scheme/netloc/path. -/
def pyUrlparse (s : PyStr) : UrlParts :=
  let (scheme, rest) :=
    match splitAtChar ':' s with
    | some (pre, post) =>
        if pre ≠ [] && (pre.headD 'a').isAlpha && pre.all isSchemeChar
        then (pre.map Char.toLower, post)
        else ([], s)
    | none => ([], s)
  let (netloc, rest2) :=
    match rest with
    | '/' :: '/' :: r => splitNetloc r
    | _ => ([], rest)
  let path := beforeChar '?' (beforeChar '#' rest2)
  ⟨scheme, netloc, path⟩

/-- Embedding of `_is_http_url_entry` (test_pipeline.py:642, run_tests.py:561). -/
def is_http_url_entry (s : PyStr) : Bool :=
  let r := pyUrlparse s
  if r.scheme ≠ "http".data || r.netloc = [] || r.path = [] then false
  else if s.getLast? = some '/' then false
  else if hasSlashWsSlash (s.drop 7) then false
  else true

/-- Embedding of `_is_path_entry` (test_pipeline.py:657, run_tests.py:576). -/
def is_path_entry (s : PyStr) : Bool :=
  if hasSlashWsSlash s then false
  else if s.getLast? = some '/' then false
  else if ['~'].isPrefixOf s then ['~', '/'].isPrefixOf s
  else if ['^'].isPrefixOf s then ['^', '/'].isPrefixOf s
  else true

/-- Embedding of `_is_valid_entry` (test_pipeline.py:673, run_tests.py:592). -/
def is_valid_entry (line : PyStr) : Bool :=
  if line = [] then true
  else if ['#'].isPrefixOf line then true
  else if 1 < countArchiveMatches line then false
  else is_http_url_entry line || is_path_entry line

/-- Literal `//` substring test (the spec's "doubled path separator"). -/
def hasDoubleSlash : PyStr → Bool
  | '/' :: '/' :: _ => true
  | _ :: rest => hasDoubleSlash rest
  | [] => false

/-- Modelled from the spec's words for claim C5: path-entry rules with
"no doubled path separator `//`" read as a literal `//` substring. -/
def specPathEntry (s : PyStr) : Bool :=
  !(hasDoubleSlash s) && !(s.getLast? = some '/') &&
    (!(['~'].isPrefixOf s) || ['~', '/'].isPrefixOf s) &&
    (!(['^'].isPrefixOf s) || ['^', '/'].isPrefixOf s)

/-- Modelled from the spec's words for claim C5: a non-blank,
non-comment line is accepted iff the literal archive suffix occurs at
most once and the line is an HTTP entry or a (literal-`//`) path
entry. -/
def specValidEntry (line : PyStr) : Bool :=
  decide (countLiteralArchive line ≤ 1) &&
    (is_http_url_entry line || specPathEntry line)

/-! ## Path manipulation: `os.path.normpath`, `_join`, `_expand_path` -/

/-- Split on `/` like Python's `str.split('/')` (accumulator form). -/
def splitSlashAux : PyStr → PyStr → List PyStr
  | acc, [] => [acc.reverse]
  | acc, '/' :: rest => acc.reverse :: splitSlashAux [] rest
  | acc, c :: rest => splitSlashAux (c :: acc) rest

/-- Embedding of `str.split('/')`. -/
def splitSlash (s : PyStr) : List PyStr :=
  splitSlashAux [] s

/-- Embedding of `'/'.join(comps)`. -/
def joinSlash : List PyStr → PyStr
  | [] => []
  | [x] => x
  | x :: xs => x ++ '/' :: joinSlash xs

/-- Component normalisation loop of `posixpath.normpath`: drop empty and
`.` components and resolve `..` against the accumulated components. -/
def normComps (isAbs : Bool) (comps : List PyStr) : List PyStr :=
  comps.foldl
    (fun acc comp =>
      if comp = [] || comp = ['.'] then acc
      else if comp ≠ ['.', '.'] || (!isAbs && acc = []) ||
          (acc ≠ [] && acc.getLast? = some ['.', '.']) then acc ++ [comp]
      else if acc ≠ [] then acc.dropLast
      else acc)
    []

/-- Embedding of `posixpath.normpath` (POSIX keeps exactly two initial
slashes special). -/
def pyNormpath (s : PyStr) : PyStr :=
  if s = [] then ['.']
  else
    let slashes : Nat :=
      if ['/', '/'].isPrefixOf s && !(['/', '/', '/'].isPrefixOf s) then 2
      else if ['/'].isPrefixOf s then 1
      else 0
    let nc := normComps (slashes > 0) (splitSlash s)
    let res := List.replicate slashes '/' ++ joinSlash nc
    if res = [] then ['.'] else res

/-- Embedding of `TestPipeline._join` / `_join`:
`os.path.normpath('/'.join(components))`. -/
def pyJoinComponents (comps : List PyStr) : PyStr :=
  pyNormpath (joinSlash comps)

/-- Embedding of `os.path.join(a, b)` for two POSIX components (used for
output-artifact paths, where `b` is a plain filename). -/
def pyPathJoin (a b : PyStr) : PyStr :=
  if ['/'].isPrefixOf b then b
  else if a = [] || a.getLast? = some '/' then a ++ b
  else a ++ '/' :: b

/-- Ambient process state that `_expand_path` reads: the directory of the
(absolute) input file, the caller's home directory and the working
directory at setup time. -/
structure PathEnv where
  inputFileDir : PyStr
  home : PyStr
  cwd : PyStr

/-- Embedding of `_expand_path` (test_pipeline.py:418, run_tests.py:337).
`^/...` resolves against the input file's directory; `~/...` uses the
home directory (`os.path.expanduser`; other `~user` forms never pass the
validator and are left unchanged); everything else goes through
`os.path.abspath`, i.e. is resolved against the working directory and
normalised. -/
def expand_path (env : PathEnv) (p : PyStr) : PyStr :=
  if ['^'].isPrefixOf p then env.inputFileDir ++ p.drop 1
  else
    let p1 :=
      if ['~', '/'].isPrefixOf p then env.home ++ p.drop 1
      else if p = ['~'] then env.home
      else p
    if ['/'].isPrefixOf p1 then pyNormpath p1
    else pyNormpath (env.cwd ++ '/' :: p1)

/-! ## Materialization (`_split`, `_handle_simple_entry`, `_handle_line`) -/

/-- Filesystem effects the Materializer can perform. -/
inductive MatAction where
  | download (url : PyStr) (analysisPath : PyStr)
  | copyMerge (srcPath : PyStr) (analysisPath : PyStr)
deriving Repr, DecidableEq

/-- Discriminator for download actions. -/
def MatAction.isDownload : MatAction → Bool
  | .download _ _ => true
  | .copyMerge _ _ => false

/-- Embedding of `_indicates_url` (test_pipeline.py:516, run_tests.py:435):
the URL detector is a stub that reports `False` for every parse result. -/
def indicates_url (_ : UrlParts) : Bool :=
  false

/-- Engine configuration for one run: the path environment plus the two
(absolute) root directories. -/
structure EngineCfg extends PathEnv where
  analysisRoot : PyStr
  outputRoot : PyStr

/-- Embedding of `_handle_simple_entry` (test_pipeline.py:606,
run_tests.py:525).  `doesExist` is the state of the filesystem
(`os.path.exists`).  Returns the performed materialization actions and
the `(analysis_path, output_path)` pair. -/
def handle_simple_entry (cfg : EngineCfg) (doesExist : PyStr → Bool) (entry : PyStr) :
    List MatAction × PyStr × PyStr :=
  let r := pyUrlparse entry
  if indicates_url r then
    let analysisPath := pyJoinComponents [cfg.analysisRoot, r.scheme, r.netloc, r.path]
    let outputPath := pyJoinComponents [cfg.outputRoot, r.scheme, r.netloc, r.path]
    ((if doesExist analysisPath then [] else [.download entry analysisPath]),
      analysisPath, outputPath)
  else
    let path := expand_path cfg.toPathEnv entry
    let analysisPath := pyJoinComponents [cfg.analysisRoot, path]
    ([.copyMerge path analysisPath], analysisPath,
      pyJoinComponents [cfg.outputRoot, path])

/-- First literal occurrence of `.tar.bz2`, as found by
`line.partition(self._archive_suf)` (which, unlike `re.findall`, treats
the suffix literally): parts strictly before and after the occurrence. -/
def partitionArchive : PyStr → Option (PyStr × PyStr)
  | '.' :: 't' :: 'a' :: 'r' :: '.' :: 'b' :: 'z' :: '2' :: rest => some ([], rest)
  | c :: rest => (partitionArchive rest).map (fun p => (c :: p.1, p.2))
  | [] => none

/-- The literal archive suffix `.tar.bz2`. -/
def archiveSuf : PyStr :=
  ['.', 't', 'a', 'r', '.', 'b', 'z', '2']

/-- Embedding of `_split` (test_pipeline.py:406, run_tests.py:325).
`none` models the `AssertionError` when the text after the suffix is
non-empty but not of the form `/...` with at least two characters. -/
def pySplitArchive (line : PyStr) : Option (PyStr × PyStr) :=
  match partitionArchive line with
  | some (l, r) =>
      if r = [] || (1 < r.length && ['/'].isPrefixOf r) then some (l ++ archiveSuf, r)
      else none
  | none => some ([], line)

/-- Embedding of the entry-dispatch part of `_handle_line`
(test_pipeline.py:626, run_tests.py:545): returns the materialization
actions performed and whether an exception propagates to `test()`.  A
line with a non-empty archive part calls
`self._handle_archive_entry(pre, suf)`, but `_handle_archive_entry`
(test_pipeline.py:512) accepts no arguments, so the call itself raises
`TypeError` before anything is done; a failing `_split` assertion raises
`AssertionError` likewise.  (The subsequent `_handle_local_path`
traversal of a successfully materialized entry is modelled separately by
the chain-executor definitions below.) -/
def handle_line (cfg : EngineCfg) (doesExist : PyStr → Bool) (line : PyStr) :
    List MatAction × Bool :=
  match pySplitArchive line with
  | none => ([], true)
  | some (pre, suf) =>
      if pre ≠ [] then ([], true)
      else ((handle_simple_entry cfg doesExist suf).1, false)

/-! ## Pass-chain executor (`_run_analysis`) -/

/-- A Python value that is either a bare item or a list of items (the
`output` attribute of a pass may be a single filename or a list, and
`unwrap_list` may hand a pass a bare file object or a list of them). -/
inductive PyVal (α : Type) where
  | single (a : α)
  | many (l : List α)
deriving Repr, DecidableEq

/-- Embedding of `wrap_list` (test_pipeline.py:474, run_tests.py:393):
`v if type(v) is list else [v]`. -/
def wrap_list {α : Type} : PyVal α → List α
  | .single a => [a]
  | .many l => l

/-- Embedding of `unwrap_list` (test_pipeline.py:478, run_tests.py:397):
`v[0] if type(v) is list and len(v) == 1 else v` (the argument `fos` at
the call site is always a list). -/
def unwrap_list {α : Type} : List α → PyVal α
  | [a] => .single a
  | v => .many v

/-- Output-file handles opened for a producing pass, identified by their
opened paths: `open(os.path.join(output_dir, out), 'w')` for each
declared name, in declaration order. -/
def openedHandles (outputDir : PyStr) (output : PyVal PyStr) : List PyStr :=
  (wrap_list output).map (pyPathJoin outputDir)

/-- The second argument `_run_analysis` passes to a producing pass
(test_pipeline.py:544, run_tests.py:463): `self.unwrap_list(fos)`. -/
def passSecondArg (outputDir : PyStr) (output : PyVal PyStr) : PyVal PyStr :=
  unwrap_list (openedHandles outputDir output)

/-- Result of invoking one pass, as the executor's `try` blocks see it:
a returned verdict, a caught fault (any `BaseException` other than
`KeyboardInterrupt`, handled by the `!`/`^` branches), or a
`KeyboardInterrupt` (re-raised). -/
inductive POutcome where
  | ok (verdict : Bool)
  | fault
  | interrupt
deriving Repr, DecidableEq

/-- One registered pass as seen by a chain run: its declared `output`
attribute, if any, and the outcome of invoking it on this file. -/
structure PassRun where
  output : Option (PyVal PyStr)
  res : POutcome
deriving Repr, DecidableEq

/-- Number of passes actually invoked by the `for p in self._passes`
loop of `_run_analysis`: every pass up to and including the first one
that does not return `True` (a `False` verdict, a caught fault, and a
`KeyboardInterrupt` all leave the loop). -/
def invokedCount : List PassRun → Nat
  | [] => 0
  | p :: rest =>
      match p.res with
      | .ok true => 1 + invokedCount rest
      | _ => 1

/-- Output names declared by one pass (`wrap_list(p.output)` when the
pass has an `output` attribute, nothing otherwise). -/
def outNames : Option (PyVal PyStr) → List PyStr
  | some o => wrap_list o
  | none => []

/-- Output artifacts (file names inside this file's output directory)
created by a chain run: a producing pass's files are opened (truncated)
before the pass is invoked, so they exist even when the pass faults;
passes after the first non-`True` outcome are never reached. -/
def chainArtifacts : List PassRun → List PyStr
  | [] => []
  | p :: rest =>
      match p.res with
      | .ok true => outNames p.output ++ chainArtifacts rest
      | _ => outNames p.output

/-- All output names declared by a list of passes, invoked or not. -/
def declaredOutputs : List PassRun → List PyStr
  | [] => []
  | p :: rest => outNames p.output ++ declaredOutputs rest

/-- Process-wide state that `_run_analysis` mutates: the working
directory. -/
structure ExecState where
  cwd : PyStr
deriving Repr, DecidableEq

/-- The pass loop of `_run_analysis`, threading the process state.
Returns the state after the loop and whether a `KeyboardInterrupt` is
propagating (the executor's passes do not change the working
directory themselves). -/
def runChainLoop (st : ExecState) : List PassRun → ExecState × Bool
  | [] => (st, false)
  | p :: rest =>
      match p.res with
      | .ok true => runChainLoop st rest
      | .ok false => (st, false)
      | .fault => (st, false)
      | .interrupt => (st, true)

/-- Embedding of the working-directory handling of `_run_analysis`
(test_pipeline.py:520–576, run_tests.py:439–495): save `os.getcwd()`,
`os.chdir(parent)`, run the pass loop, and execute the trailing
`os.chdir(cwd)` only when no exception is propagating — the restore is
not inside a `finally` block. -/
def run_analysis (st : ExecState) (parent : PyStr) (ps : List PassRun) :
    ExecState × Bool :=
  let cwd := st.cwd
  let stepped := runChainLoop ⟨parent⟩ ps
  if stepped.2 then stepped
  else (⟨cwd⟩, false)

/-! ## Data-gathering pipeline (`DataPipeline.gather_data`) -/

/-- One data-gathering or checking pass of the data pipeline: the fixed
input artifact name, the csv column name (data-gathering passes only),
and the pass body mapping file contents to `(continue?, extracted)`. -/
structure DataPass where
  input_file : PyStr
  column : Option PyStr
  run : PyStr → Bool × PyStr

/-- Per-leaf-directory pass loop of `gather_data`
(data_pipeline.py:130–153), producing the csv entries appended after the
leading `test` column.  `ex` maps an artifact name to its contents when
the file exists in the leaf directory.  The boolean argument is the
`complete_record` flag. -/
def gatherLoop (ex : PyStr → Option PyStr) : List DataPass → Bool → List PyStr
  | [], _ => []
  | p :: rest, complete =>
      if complete then
        (if p.column.isSome then [['-']] else []) ++ gatherLoop ex rest true
      else
        match ex p.input_file with
        | some s =>
            let br := p.run s
            (if p.column.isSome then [if br.2 = [] then ['-'] else br.2] else []) ++
              gatherLoop ex rest (!br.1)
        | none =>
            (if p.column.isSome then [['-']] else []) ++ gatherLoop ex rest false

/-- Value of the `complete_record` flag after a list of data passes has
been processed (used to split `gatherLoop` over an append). -/
def flagAfter (ex : PyStr → Option PyStr) : List DataPass → Bool → Bool
  | [], c => c
  | p :: rest, c =>
      if c then flagAfter ex rest true
      else
        match ex p.input_file with
        | some s => flagAfter ex rest (!(p.run s).1)
        | none => flagAfter ex rest false

/-! ## `RunPass.__call__`: CPU-time accounting -/

/-- The children-CPU counters returned by
`resource.getrusage(resource.RUSAGE_CHILDREN)`. -/
structure RUsage where
  ru_utime : ℚ
  ru_stime : ℚ
deriving Repr, DecidableEq

/-- CPU-time step of `RunPass.__call__` in test_pipeline.py (lines
207–216, identically analysis_passes.py): the subtraction of the running
sums is commented out under a `TODO: adjust time handling` remark and
`ru_utime - 0` / `ru_stime - 0` is written instead; the running sums are
still updated afterwards.  Returns the `(utime, stime)` pair written to
the metrics artifact and the new `(_utime_sum, _stime_sum)`. -/
def runPassTimesTP (_sums : ℚ × ℚ) (res : RUsage) : (ℚ × ℚ) × (ℚ × ℚ) :=
  ((res.ru_utime - 0, res.ru_stime - 0), (res.ru_utime, res.ru_stime))

/-- CPU-time step of `RunPass.__call__` in run_tests.py (lines 233–239):
deltas against the module-level `_utime_sum` / `_stime_sum`, which are
then updated. -/
def runPassTimesRT (sums : ℚ × ℚ) (res : RUsage) : (ℚ × ℚ) × (ℚ × ℚ) :=
  ((res.ru_utime - sums.1, res.ru_stime - sums.2), (res.ru_utime, res.ru_stime))

/-- Values written over a whole run: the per-invocation step applied to
the successive cumulative counter readings, threading the sums (both
start at 0). -/
def runSeq (f : (ℚ × ℚ) → RUsage → (ℚ × ℚ) × (ℚ × ℚ)) :
    (ℚ × ℚ) → List RUsage → List (ℚ × ℚ)
  | _, [] => []
  | sums, r :: rest =>
      let step := f sums r
      step.1 :: runSeq f step.2 rest

/-- Modelled from the spec: the `User time` / `Sys time` values are the
per-invocation deltas of the cumulative children counter — this
invocation's reading minus the previous invocation's reading (zero
before the first invocation). -/
def specDeltas : (ℚ × ℚ) → List RUsage → List (ℚ × ℚ)
  | _, [] => []
  | prev, r :: rest =>
      (r.ru_utime - prev.1, r.ru_stime - prev.2) ::
        specDeltas (r.ru_utime, r.ru_stime) rest

/-! ## `MeasureMemoryUsage.run`: peak-memory sampling -/

/-- One process's `memory_info()` reading. -/
structure MemInfo where
  rss : ℕ
  vms : ℕ
deriving Repr, DecidableEq

/-- One iteration of the sampling loop of `MeasureMemoryUsage.run`
(test_pipeline.py:65–87, run_tests.py:98–120): `rss`/`vms` accumulate
the sums over the parent and (if configured) its descendants, `m` is
left holding the last `memory_info()` result read, and the maxima are
updated from `m` after comparing against the sums. -/
def sampleUpdate (includeChildren : Bool) (parent : MemInfo) (children : List MemInfo)
    (st : ℕ × ℕ) : ℕ × ℕ :=
  let infos := if includeChildren then parent :: children else [parent]
  let rss := (infos.map MemInfo.rss).sum
  let vms := (infos.map MemInfo.vms).sum
  let m := if includeChildren then children.getLastD parent else parent
  ((if rss > st.1 then m.rss else st.1), (if vms > st.2 then m.vms else st.2))

/-- The sampler's `(max_rss, max_vms)` after a sequence of sampling
instants, each giving the parent's and the descendants' readings. -/
def measureRun (includeChildren : Bool) (samples : List (MemInfo × List MemInfo)) :
    ℕ × ℕ :=
  samples.foldl (fun st s => sampleUpdate includeChildren s.1 s.2 st) (0, 0)

/-- Modelled from the spec for claim C2: the maximum, over all sampling
instants, of the summed resident (resp. virtual) memory of the child and
all of its descendants at that instant. -/
def specMaxTree (samples : List (MemInfo × List MemInfo)) : ℕ × ℕ :=
  samples.foldl
    (fun st s =>
      (max st.1 ((s.1 :: s.2).map MemInfo.rss).sum,
       max st.2 ((s.1 :: s.2).map MemInfo.vms).sum))
    (0, 0)

/-! ## The `test()` driver loop -/

/-- What handling one (non-blank, non-comment) input line did, as seen
by the `try` block of `test()` (test_pipeline.py:718–726,
run_tests.py:693–701). -/
inductive LineOutcome where
  | ok
  | fault
  | timeout
deriving Repr, DecidableEq

/-- Observable result of the `test()` loop. -/
structure TestRun where
  handled : List LineOutcome
  logged : ℕ
  aborted : Bool
deriving Repr, DecidableEq

/-- Embedding of the `test()` loop over the attempted lines: a fault
(`BaseException` other than `KeyboardInterrupt`/`TimeoutException`) is
logged with a traceback and the loop continues; a `TimeoutException`
(raised by `_handle_local_path` when the global deadline has passed,
checked before each leaf file) is logged and re-raised, aborting the
run. -/
def testLoop : List LineOutcome → TestRun
  | [] => ⟨[], 0, false⟩
  | .ok :: rest =>
      let r := testLoop rest
      ⟨.ok :: r.handled, r.logged, r.aborted⟩
  | .fault :: rest =>
      let r := testLoop rest
      ⟨.fault :: r.handled, r.logged + 1, r.aborted⟩
  | .timeout :: _ => ⟨[.timeout], 1, true⟩

/-! ## `_copy_and_merge`

Directory trees are embedded as finite trees whose directory nodes carry
association lists of named children (a real directory lists each name
once; the `Wf` predicate below captures that).  The target argument is
`none` when `os.path.exists(tgt)` is false. -/

/-- A filesystem tree: a file with contents, or a directory with named
children. -/
inductive FSTree where
  | file (content : PyStr)
  | dir (children : List (PyStr × FSTree))

instance : Inhabited FSTree := ⟨FSTree.dir []⟩

/-- Look up a child by name in a directory listing. -/
def lookupName (n : PyStr) : List (PyStr × FSTree) → Option FSTree
  | [] => none
  | (m, t) :: rest => if m = n then some t else lookupName n rest

mutual

/-- Embedding of `_copy_and_merge` (test_pipeline.py:433–471,
run_tests.py:352–390): a source file is copied only when the target does
not exist; a source directory recurses into an existing target
directory, is ignored when the target is an existing file, and is copied
wholesale (`shutil.copytree`) when the target does not exist. -/
def mergeCopy : FSTree → Option FSTree → FSTree
  | .file c, none => .file c
  | .file _, some t => t
  | .dir cs, none => .dir cs
  | .dir _, some (.file c) => .file c
  | .dir cs, some (.dir ts) => .dir (mergeList cs ts)
termination_by t o => (sizeOf t, sizeOf o)

/-- Recursion of `_copy_and_merge` over the source directory's entries,
each merged into the target listing in turn. -/
def mergeList : List (PyStr × FSTree) → List (PyStr × FSTree) → List (PyStr × FSTree)
  | [], ts => ts
  | (n, c) :: rest, ts => mergeList rest (mergeInto n c ts)
termination_by cs ts => (sizeOf cs, sizeOf ts)

/-- Merge one named source entry into a target listing: recurse into the
entry of the same name if present (first occurrence), else create it. -/
def mergeInto (n : PyStr) (c : FSTree) : List (PyStr × FSTree) → List (PyStr × FSTree)
  | [] => [(n, c)]
  | (m, u) :: ts =>
      if m = n then (m, mergeCopy c (some u)) :: ts
      else (m, u) :: mergeInto n c ts
termination_by ts => (sizeOf c, sizeOf ts)

end

/-- Well-formed trees: every directory lists each name at most once
(true of a real filesystem directory). -/
inductive Wf : FSTree → Prop
  | file (c : PyStr) : Wf (.file c)
  | dir (cs : List (PyStr × FSTree)) :
      (cs.map Prod.fst).Nodup → (∀ p ∈ cs, Wf p.2) → Wf (.dir cs)

/-- Subtree of a tree at a relative path (a list of component names). -/
def getPath : List PyStr → FSTree → Option FSTree
  | [], t => some t
  | _ :: _, .file _ => none
  | n :: rest, .dir cs =>
      match lookupName n cs with
      | some t => getPath rest t
      | none => none

/-- A concrete engine configuration used by closed sanity instances. -/
def exampleCfg : EngineCfg :=
  { inputFileDir := "/in".data, home := "/home/u".data, cwd := "/cwd".data,
    analysisRoot := "/ar".data, outputRoot := "/or".data }

/-! # Theorems

Helper lemmas first, then one theorem per claim (with its witness or
counterexample where applicable). -/

/-- Characterisation of the if-chain of `_is_path_entry` as the
conjunction of its three rules. -/
theorem is_path_entry_iff (s : PyStr) :
    is_path_entry s = true ↔
      (hasSlashWsSlash s = false ∧ s.getLast? ≠ some '/' ∧
        (['~'].isPrefixOf s = true → ['~', '/'].isPrefixOf s = true) ∧
        (['^'].isPrefixOf s = true → ['^', '/'].isPrefixOf s = true)) := by
  unfold is_path_entry
  split_ifs with h1 h2 h3 h4 <;> simp_all
  cases s with
  | nil => simp at h3
  | cons a t =>
    have ha : a = '~' := by
      rw [List.cons_prefix_cons] at h3
      exact h3.1.symm
    intro _ hc
    rw [List.cons_prefix_cons] at hc
    exact absurd (ha ▸ hc.1) (by decide)

/-- Splitting `gatherLoop` over an append, threading the
`complete_record` flag. -/
theorem gatherLoop_append (ex : PyStr → Option PyStr) (ds₁ ds₂ : List DataPass) (c : Bool) :
    gatherLoop ex (ds₁ ++ ds₂) c =
      gatherLoop ex ds₁ c ++ gatherLoop ex ds₂ (flagAfter ex ds₁ c) := by
  induction ds₁ generalizing c with
  | nil => simp [gatherLoop, flagAfter]
  | cons p rest ih =>
    by_cases hc : c
    · simp [gatherLoop, flagAfter, hc, ih]
    · cases hex : ex p.input_file with
      | none => simp [gatherLoop, flagAfter, hc, hex, ih]
      | some s => simp [gatherLoop, flagAfter, hc, hex, ih]

/-- Data passes whose input artifact is missing each contribute a `-`
entry, whatever the `complete_record` flag is. -/
theorem gatherLoop_missing (ex : PyStr → Option PyStr) (ds : List DataPass)
    (h : ∀ d ∈ ds, ex d.input_file = none ∧ d.column.isSome = true) :
    ∀ c, gatherLoop ex ds c = ds.map (fun _ => ['-']) := by
  induction ds with
  | nil =>
    intro c
    simp [gatherLoop]
  | cons p rest ih =>
    intro c
    obtain ⟨hex, hcol⟩ := h p (List.mem_cons_self _ _)
    have hr := ih (fun d hd => h d (List.mem_cons_of_mem _ hd))
    by_cases hc : c
    · simp [gatherLoop, hc, hcol, hex, hr]
    · simp [gatherLoop, hc, hcol, hex, hr]

/-- A chain prefix of passes that all return `True` invokes each of them
and continues. -/
theorem invokedCount_append_true (l₁ : List PassRun)
    (hpre : ∀ p ∈ l₁, p.res = .ok true) (l₂ : List PassRun) :
    invokedCount (l₁ ++ l₂) = l₁.length + invokedCount l₂ := by
  induction l₁ with
  | nil => simp [invokedCount]
  | cons p rest ih =>
    have hp := hpre p (List.mem_cons_self _ _)
    have hr := ih (fun q hq => hpre q (List.mem_cons_of_mem _ hq))
    simp [invokedCount, hp, hr]
    omega

/-- Artifacts created over an all-`True` prefix are exactly its declared
outputs. -/
theorem chainArtifacts_append_true (l₁ : List PassRun)
    (hpre : ∀ p ∈ l₁, p.res = .ok true) (l₂ : List PassRun) :
    chainArtifacts (l₁ ++ l₂) = declaredOutputs l₁ ++ chainArtifacts l₂ := by
  induction l₁ with
  | nil => simp [chainArtifacts, declaredOutputs]
  | cons p rest ih =>
    have hp := hpre p (List.mem_cons_self _ _)
    have hr := ih (fun q hq => hpre q (List.mem_cons_of_mem _ hq))
    simp [chainArtifacts, declaredOutputs, hp, hr]

/-- Unfolding lemma: merging an empty source listing. -/
theorem mergeList_nil (ts : List (PyStr × FSTree)) : mergeList [] ts = ts := by
  simp [mergeList]

/-- Unfolding lemma: merging a source listing one entry at a time. -/
theorem mergeList_cons (n : PyStr) (c : FSTree) (rest ts : List (PyStr × FSTree)) :
    mergeList ((n, c) :: rest) ts = mergeList rest (mergeInto n c ts) := by
  simp [mergeList]

/-- Merging into a non-existing target copies the source unchanged. -/
theorem mergeCopy_none (t : FSTree) : mergeCopy t none = t := by
  cases t <;> simp [mergeCopy]

/-- A source file never touches an existing target (file or directory). -/
theorem mergeCopy_file_some (c : PyStr) (t : FSTree) :
    mergeCopy (.file c) (some t) = t := by
  simp [mergeCopy]

/-- Looking up the merged name after `mergeInto`. -/
theorem lookupName_mergeInto_self (n : PyStr) (c : FSTree)
    (ts : List (PyStr × FSTree)) :
    lookupName n (mergeInto n c ts) =
      some (match lookupName n ts with
        | some u => mergeCopy c (some u)
        | none => c) := by
  induction ts with
  | nil => simp [mergeInto, lookupName]
  | cons p rest ih =>
    obtain ⟨m, u⟩ := p
    by_cases h : m = n <;> simp [mergeInto, lookupName, h, ih]

/-- Looking up any other name after `mergeInto`. -/
theorem lookupName_mergeInto_ne (n m : PyStr) (hmn : m ≠ n) (c : FSTree)
    (ts : List (PyStr × FSTree)) :
    lookupName m (mergeInto n c ts) = lookupName m ts := by
  induction ts with
  | nil =>
    simp [mergeInto, lookupName]
    intro h
    exact absurd h.symm hmn
  | cons p rest ih =>
    obtain ⟨k, u⟩ := p
    by_cases hk : k = n
    · subst hk
      have hkm : ¬ (k = m) := fun he => hmn he.symm
      simp [mergeInto, lookupName, hkm]
    · simp [mergeInto, lookupName, hk, ih]

/-- `mergeInto` is the identity when the stored value already absorbs
the merged child. -/
theorem mergeInto_noop (n : PyStr) (c : FSTree) (ts : List (PyStr × FSTree))
    (u : FSTree) (hl : lookupName n ts = some u) (habs : mergeCopy c (some u) = u) :
    mergeInto n c ts = ts := by
  induction ts with
  | nil => simp [lookupName] at hl
  | cons p rest ih =>
    obtain ⟨m, v⟩ := p
    by_cases h : m = n
    · subst h
      simp [lookupName] at hl
      subst hl
      simp [mergeInto, habs]
    · simp [lookupName, h] at hl
      simp [mergeInto, h, ih hl]

/-- `mergeList` leaves the entry of a name absent from the source
listing untouched. -/
theorem lookupName_mergeList_notin (rest : List (PyStr × FSTree)) (n : PyStr)
    (h : n ∉ rest.map Prod.fst) (B : List (PyStr × FSTree)) :
    lookupName n (mergeList rest B) = lookupName n B := by
  induction rest generalizing B with
  | nil => simp [mergeList]
  | cons p r2 ih =>
    obtain ⟨m, c⟩ := p
    have hm : m ≠ n := by
      intro he
      exact h (by simp [he])
    have hr : n ∉ r2.map Prod.fst := by
      intro he
      exact h (by simp [he])
    rw [mergeList_cons, ih hr, lookupName_mergeInto_ne m n (fun he => hm he.symm)]

/-- A merge into a target that starts with a name absent from the
source keeps that head entry in place. -/
theorem mergeList_cons_skip (rest : List (PyStr × FSTree)) (n : PyStr) (c : FSTree)
    (h : n ∉ rest.map Prod.fst) (B : List (PyStr × FSTree)) :
    mergeList rest ((n, c) :: B) = (n, c) :: mergeList rest B := by
  induction rest generalizing B with
  | nil => simp [mergeList]
  | cons p r2 ih =>
    obtain ⟨m, d⟩ := p
    have hm : ¬ (n = m) := fun he => h (by simp [he])
    have hr : n ∉ r2.map Prod.fst := fun he => h (by simp [he])
    rw [mergeList_cons]
    have hstep : mergeInto m d ((n, c) :: B) = (n, c) :: mergeInto m d B := by
      simp [mergeInto, hm]
    rw [hstep, ih hr, mergeList_cons]

/-- Merging a duplicate-free listing into an empty target reproduces
the listing. -/
theorem mergeList_nil_tgt (cs : List (PyStr × FSTree))
    (hnd : (cs.map Prod.fst).Nodup) : mergeList cs [] = cs := by
  induction cs with
  | nil => simp [mergeList]
  | cons p rest ih =>
    obtain ⟨n, c⟩ := p
    simp only [List.map_cons, List.nodup_cons] at hnd
    rw [mergeList_cons]
    have h1 : mergeInto n c ([] : List (PyStr × FSTree)) = [(n, c)] := by
      simp [mergeInto]
    rw [h1, mergeList_cons_skip rest n c hnd.1, ih hnd.2]

/-- A member's tree component is smaller than the listing holding it. -/
theorem sizeOf_snd_lt_of_mem {p : PyStr × FSTree} {cs : List (PyStr × FSTree)}
    (h : p ∈ cs) : sizeOf p.2 < sizeOf cs := by
  have h1 := List.sizeOf_lt_of_mem h
  obtain ⟨n, c⟩ := p
  simp at h1 ⊢
  omega

/-- Fuel-indexed core of merge-copy idempotence: re-merging a source
into its own merge result changes nothing. -/
theorem absorbAux (k : Nat) : ∀ src : FSTree, sizeOf src ≤ k → Wf src →
    ∀ tgt, mergeCopy src (some (mergeCopy src tgt)) = mergeCopy src tgt := by
  induction k with
  | zero =>
    intro src hs
    cases src <;> simp at hs
  | succ k ih =>
    intro src hs hwf tgt
    cases src with
    | file c => rw [mergeCopy_file_some]
    | dir cs =>
      cases hwf with
      | dir _ hnd hwfc =>
        have hdirsize : sizeOf cs < sizeOf (FSTree.dir cs) := by
          simp
        have hsize : ∀ p ∈ cs, sizeOf p.2 ≤ k := by
          intro p hp
          have h1 := sizeOf_snd_lt_of_mem hp
          omega
        have hlist : ∀ cs' : List (PyStr × FSTree), (∀ p ∈ cs', sizeOf p.2 ≤ k) →
            (cs'.map Prod.fst).Nodup → (∀ p ∈ cs', Wf p.2) →
            ∀ B, mergeList cs' (mergeList cs' B) = mergeList cs' B := by
          intro cs'
          induction cs' with
          | nil =>
            intro _ _ _ B
            rw [mergeList_nil, mergeList_nil]
          | cons q rest ihl =>
            intro hsz hnd' hwf' B
            obtain ⟨n, c⟩ := q
            simp only [List.map_cons, List.nodup_cons] at hnd'
            have hszc : sizeOf c ≤ k := hsz (n, c) (List.mem_cons_self _ _)
            have hwfc2 : Wf c := hwf' (n, c) (List.mem_cons_self _ _)
            rw [mergeList_cons, mergeList_cons]
            have hlk : lookupName n (mergeList rest (mergeInto n c B)) =
                lookupName n (mergeInto n c B) :=
              lookupName_mergeList_notin rest n hnd'.1 _
            rw [lookupName_mergeInto_self] at hlk
            have hnoop : mergeInto n c (mergeList rest (mergeInto n c B)) =
                mergeList rest (mergeInto n c B) := by
              cases hu : lookupName n B with
              | some u =>
                rw [hu] at hlk
                exact mergeInto_noop n c _ _ hlk (ih c hszc hwfc2 (some u))
              | none =>
                rw [hu] at hlk
                have habs : mergeCopy c (some c) = c := by
                  have h3 := ih c hszc hwfc2 none
                  rw [mergeCopy_none] at h3
                  exact h3
                exact mergeInto_noop n c _ _ hlk habs
            rw [hnoop]
            exact ihl (fun q hq => hsz q (List.mem_cons_of_mem _ hq)) hnd'.2
              (fun q hq => hwf' q (List.mem_cons_of_mem _ hq)) (mergeInto n c B)
        cases tgt with
        | none =>
          rw [mergeCopy_none]
          have he : mergeCopy (.dir cs) (some (.dir cs)) = .dir (mergeList cs cs) := by
            simp [mergeCopy]
          rw [he]
          have h2 : mergeList cs cs = mergeList cs (mergeList cs []) := by
            rw [mergeList_nil_tgt cs hnd]
          rw [h2, hlist cs hsize hnd hwfc [], mergeList_nil_tgt cs hnd]
        | some t =>
          cases t with
          | file c =>
            have he : mergeCopy (.dir cs) (some (.file c)) = .file c := by
              simp [mergeCopy]
            rw [he, he]
          | dir ts =>
            have he : ∀ us, mergeCopy (.dir cs) (some (.dir us)) =
                .dir (mergeList cs us) := by
              intro us
              simp [mergeCopy]
            rw [he, he, hlist cs hsize hnd hwfc ts]

/-- Merge-copy absorbs a second run over its own result. -/
theorem mergeCopy_self_absorb (src : FSTree) (h : Wf src) (tgt : Option FSTree) :
    mergeCopy src (some (mergeCopy src tgt)) = mergeCopy src tgt :=
  absorbAux (sizeOf src) src (Nat.le_refl _) h tgt

/-- Fuel-indexed core of the no-overwrite property: a file already
present in the target is still there, unchanged, after a merge. -/
theorem preserveAux (k : Nat) : ∀ src : FSTree, sizeOf src ≤ k →
    ∀ (tgt : FSTree) (p : List PyStr) (c : PyStr),
      getPath p tgt = some (.file c) →
      getPath p (mergeCopy src (some tgt)) = some (.file c) := by
  induction k with
  | zero =>
    intro src hs
    cases src <;> simp at hs
  | succ k ih =>
    intro src hs tgt p c hg
    cases src with
    | file x =>
      rw [mergeCopy_file_some]
      exact hg
    | dir cs =>
      have hdirsize : sizeOf cs < sizeOf (FSTree.dir cs) := by
        simp
      have hsize : ∀ q ∈ cs, sizeOf q.2 ≤ k := by
        intro q hq
        have h1 := sizeOf_snd_lt_of_mem hq
        omega
      cases tgt with
      | file y =>
        have he : mergeCopy (.dir cs) (some (.file y)) = .file y := by
          simp [mergeCopy]
        rw [he]
        exact hg
      | dir ts =>
        have he : mergeCopy (.dir cs) (some (.dir ts)) = .dir (mergeList cs ts) := by
          simp [mergeCopy]
        rw [he]
        cases p with
        | nil => simp [getPath] at hg
        | cons a p2 =>
          simp only [getPath] at hg ⊢
          cases hu : lookupName a ts with
          | none =>
            rw [hu] at hg
            simp at hg
          | some u =>
            rw [hu] at hg
            have hlist : ∀ cs' : List (PyStr × FSTree),
                (∀ q ∈ cs', sizeOf q.2 ≤ k) →
                ∀ (ts' : List (PyStr × FSTree)) (u' : FSTree),
                  lookupName a ts' = some u' → getPath p2 u' = some (.file c) →
                  ∃ u'', lookupName a (mergeList cs' ts') = some u'' ∧
                    getPath p2 u'' = some (.file c) := by
              intro cs'
              induction cs' with
              | nil =>
                intro _ ts' u' h1 h2
                exact ⟨u', by rwa [mergeList_nil], h2⟩
              | cons q rest ihl =>
                intro hsz ts' u' h1 h2
                obtain ⟨m, d⟩ := q
                rw [mergeList_cons]
                have hrest : ∀ q ∈ rest, sizeOf q.2 ≤ k :=
                  fun q hq => hsz q (List.mem_cons_of_mem _ hq)
                by_cases hm : m = a
                · subst hm
                  have hl2 : lookupName m (mergeInto m d ts') =
                      some (mergeCopy d (some u')) := by
                    rw [lookupName_mergeInto_self, h1]
                  have h3 : getPath p2 (mergeCopy d (some u')) = some (.file c) :=
                    ih d (hsz (m, d) (List.mem_cons_self _ _)) u' p2 c h2
                  exact ihl hrest (mergeInto m d ts') _ hl2 h3
                · have hl2 : lookupName a (mergeInto m d ts') = some u' := by
                    rw [lookupName_mergeInto_ne m a (fun he => hm he.symm)]
                    exact h1
                  exact ihl hrest (mergeInto m d ts') u' hl2 h2
            obtain ⟨u'', h5, h6⟩ := hlist cs hsize ts u hu hg
            rw [h5]
            exact h6

/-- Merge-copy never overwrites a file that already exists in the
target tree. -/
theorem mergeCopy_preserves_file (src tgt : FSTree) (p : List PyStr) (c : PyStr)
    (h : getPath p tgt = some (.file c)) :
    getPath p (mergeCopy src (some tgt)) = some (.file c) :=
  preserveAux (sizeOf src) src (Nat.le_refl _) tgt p c h

/-! ## Claim theorems -/

/-- Claim C1 (code defect, evaluated at the failing input): the claim
says every invocation writes `User time` / `Sys time` as per-invocation
deltas of the cumulative children-CPU counter.  With cumulative readings
`(1, 1)` after the first child and `(3, 2)` after the second, the
test_pipeline.py `RunPass.__call__` (where the delta subtraction is
commented out under a `TODO`) writes the cumulative `(3, 2)` on the
second invocation, not the delta `(2, 1)`; the run_tests.py variant
computes exactly the claimed deltas. -/
theorem c1_times_not_deltas :
    runSeq runPassTimesTP (0, 0) [⟨1, 1⟩, ⟨3, 2⟩] = [(1, 1), (3, 2)] ∧
    specDeltas (0, 0) [⟨1, 1⟩, ⟨3, 2⟩] = [(1, 1), (2, 1)] ∧
    runSeq runPassTimesTP (0, 0) [⟨1, 1⟩, ⟨3, 2⟩] ≠ specDeltas (0, 0) [⟨1, 1⟩, ⟨3, 2⟩] ∧
    runSeq runPassTimesRT (0, 0) [⟨1, 1⟩, ⟨3, 2⟩] = specDeltas (0, 0) [⟨1, 1⟩, ⟨3, 2⟩] := by
  refine ⟨?_, ?_, ?_, ?_⟩ <;>
    norm_num [runSeq, runPassTimesTP, runPassTimesRT, specDeltas]

/-- Claim C2 (code defect, evaluated at the failing input): the claim
says the recorded maxima are maxima of the summed memory of the process
tree.  At a single sampling instant with the child at rss = vms = 10 and
one descendant at rss = vms = 5, `MeasureMemoryUsage.run` compares the
sum 15 against the running maximum but then stores `m.rss` / `m.vms` of
the last process read — recording `(5, 5)` instead of `(15, 15)`. -/
theorem c2_sampler_stores_wrong_value :
    measureRun true [(⟨10, 10⟩, [⟨5, 5⟩])] = (5, 5) ∧
    specMaxTree [(⟨10, 10⟩, [⟨5, 5⟩])] = (15, 15) ∧
    measureRun true [(⟨10, 10⟩, [⟨5, 5⟩])] ≠ specMaxTree [(⟨10, 10⟩, [⟨5, 5⟩])] := by
  refine ⟨?_, ?_, ?_⟩ <;> decide

/-- Claim C3, counterexample to the claim as stated: the entry
`http://example.com/f` satisfies the validator's HTTP-entry rules, the
filesystem reports every path as non-existing, yet materialization
performs no download at all (every action is a merge-copy), because
`_indicates_url` always returns `False`. -/
theorem c3_counterexample :
    is_http_url_entry ("http://example.com/f").data = true ∧
    ((handle_simple_entry exampleCfg (fun _ => false)
        ("http://example.com/f").data).1.all fun a => !a.isDownload) = true :=
  ⟨by decide, by decide⟩

/-- Claim C3 as amended: since `_indicates_url` is a stub returning
`False`, every entry — URL entries included — is materialized through
the path branch: its expanded path is merge-copied into the analysis
root, and the download branch is never executed, whether or not the
URL-keyed location exists. -/
theorem c3_no_download_ever (cfg : EngineCfg) (ex : PyStr → Bool) (entry : PyStr) :
    (handle_simple_entry cfg ex entry).1 =
      [.copyMerge (expand_path cfg.toPathEnv entry)
        (pyJoinComponents [cfg.analysisRoot, expand_path cfg.toPathEnv entry])] ∧
    ((handle_simple_entry cfg ex entry).1.all fun a => !a.isDownload) = true :=
  ⟨rfl, rfl⟩

/-- Claim C4, counterexample to the claim as stated: when the single
pass raises `KeyboardInterrupt`, the exception propagates out of
`_run_analysis` before the trailing `os.chdir(cwd)` (there is no
`finally`), so the working directory stays at the file's parent `/p`
instead of being restored to the prior `/w`. -/
theorem c4_counterexample :
    run_analysis ⟨("/w").data⟩ ("/p").data [⟨none, .interrupt⟩] =
      (⟨("/p").data⟩, true) ∧
    ("/p").data ≠ ("/w").data :=
  ⟨by decide, by decide⟩

/-- Claim C4 as amended: for every file the working directory is set to
the file's parent for the pass chain and restored to its prior value on
every exit path on which no exception escapes the chain (normal
completion, a `False` verdict, and caught pass faults); when a
`KeyboardInterrupt` propagates out of the chain the restore is skipped
and the working directory remains the file's parent. -/
theorem c4_cwd_restored_unless_interrupt (st : ExecState) (parent : PyStr)
    (ps : List PassRun) :
    ((run_analysis st parent ps).2 = false →
      (run_analysis st parent ps).1.cwd = st.cwd) ∧
    ((run_analysis st parent ps).2 = true →
      (run_analysis st parent ps).1.cwd = parent) := by
  have hpres : ∀ (s : ExecState) (l : List PassRun), (runChainLoop s l).1 = s := by
    intro s l
    induction l with
    | nil => rfl
    | cons p rest ih =>
      cases hr : p.res with
      | ok v => cases v <;> simp [runChainLoop, hr, ih]
      | fault => simp [runChainLoop, hr]
      | interrupt => simp [runChainLoop, hr]
  cases h : (runChainLoop ⟨parent⟩ ps).2 with
  | false =>
    constructor
    · intro _
      simp [run_analysis, h]
    · intro ht
      simp [run_analysis, h] at ht
  | true =>
    constructor
    · intro hf
      simp [run_analysis, h] at hf
    · intro _
      simp [run_analysis, h, hpres]

/-- Claim C4, witness: a chain that ends with a `False` verdict leaves
the working directory restored. -/
theorem c4_witness :
    (run_analysis ⟨("/w").data⟩ ("/p").data [⟨none, .ok false⟩]).1.cwd = ("/w").data :=
  (c4_cwd_restored_unless_interrupt ⟨("/w").data⟩ ("/p").data
    [⟨none, .ok false⟩]).1 (by decide)

/-- Claim C5, counterexample to the claim as stated: `a/ /b` has no
doubled `//` substring, no trailing `/`, no `~`/`^` prefix and no
archive suffix, so the claim accepts it, but the validator rejects it
(its separator test is the regex `/\s*/`); `x_tar_bz2y_tar_bz2` has no
literal `.tar.bz2` substring, yet the validator rejects it because the
suffix constant is used as a regex whose dots match any character,
giving two matches. -/
theorem c5_counterexample :
    (("a/ /b").data ≠ [] ∧ ['#'].isPrefixOf ("a/ /b").data = false ∧
      is_valid_entry ("a/ /b").data = false ∧
      specValidEntry ("a/ /b").data = true) ∧
    (("x_tar_bz2y_tar_bz2").data ≠ [] ∧
      ['#'].isPrefixOf ("x_tar_bz2y_tar_bz2").data = false ∧
      is_valid_entry ("x_tar_bz2y_tar_bz2").data = false ∧
      specValidEntry ("x_tar_bz2y_tar_bz2").data = true) :=
  ⟨⟨by decide, by decide, by decide, by decide⟩,
    ⟨by decide, by decide, by decide, by decide⟩⟩

/-- Claim C5 as amended: a non-blank line not starting with `#` is
accepted iff the regex `.tar.bz2` (each dot matching an arbitrary
character) matches at most once and the line satisfies the HTTP-entry
rules or the path-entry rules, where "doubled separator" means two `/`
separated only by whitespace, the line does not end in `/`, and a
`~`/`^` first character is immediately followed by `/`. -/
theorem c5_validator_iff_amended (line : PyStr) (hne : line ≠ [])
    (hcomment : ['#'].isPrefixOf line = false) :
    is_valid_entry line = true ↔
      (countArchiveMatches line ≤ 1 ∧
        (is_http_url_entry line = true ∨
          (hasSlashWsSlash line = false ∧ line.getLast? ≠ some '/' ∧
            (['~'].isPrefixOf line = true → ['~', '/'].isPrefixOf line = true) ∧
            (['^'].isPrefixOf line = true → ['^', '/'].isPrefixOf line = true)))) := by
  unfold is_valid_entry
  rw [if_neg hne, if_neg (by simp [hcomment])]
  by_cases hc : 1 < countArchiveMatches line
  · simp [hc, Nat.lt_iff_add_one_le] at *
  · rw [if_neg hc]
    have hle : countArchiveMatches line ≤ 1 := Nat.le_of_not_lt hc
    simp [hle, is_path_entry_iff]

/-- Claim C5, witness: the plain path line `abc` is accepted, via the
amended equivalence. -/
theorem c5_witness : is_valid_entry ("abc").data = true :=
  (c5_validator_iff_amended ("abc").data (by decide) (by decide)).mpr (by decide)

/-- Claim C6: when every pass before some pass returns `True` and that
pass returns `False`, the executor invokes exactly the passes up to and
including it — no later pass runs — and, because the later producing
passes' artifacts were never created, the data pipeline's row gets a `-`
placeholder in the column of every data pass keyed to those artifacts
(`ex` is the resulting artifact state of the leaf output directory). -/
theorem c6_short_circuit_placeholders (l₁ l₂ : List PassRun)
    (out : Option (PyVal PyStr)) (ds₁ ds₂ : List DataPass)
    (ex : PyStr → Option PyStr)
    (hpre : ∀ p ∈ l₁, p.res = .ok true)
    (hex : ∀ n, (ex n).isSome ↔ n ∈ chainArtifacts (l₁ ++ ⟨out, .ok false⟩ :: l₂))
    (hds : ∀ d ∈ ds₂, d.column.isSome = true ∧ d.input_file ∈ declaredOutputs l₂)
    (hdisj : ∀ n ∈ declaredOutputs l₂, n ∉ declaredOutputs l₁ ++ outNames out) :
    invokedCount (l₁ ++ ⟨out, .ok false⟩ :: l₂) = l₁.length + 1 ∧
    gatherLoop ex (ds₁ ++ ds₂) false =
      gatherLoop ex ds₁ false ++ ds₂.map (fun _ => ['-']) := by
  constructor
  · rw [invokedCount_append_true l₁ hpre]
    simp [invokedCount]
  · rw [gatherLoop_append]
    congr 1
    apply gatherLoop_missing
    intro d hd
    obtain ⟨hcol, hmem⟩ := hds d hd
    refine ⟨?_, hcol⟩
    have hnot : d.input_file ∉ chainArtifacts (l₁ ++ ⟨out, .ok false⟩ :: l₂) := by
      rw [chainArtifacts_append_true l₁ hpre]
      have hstop : chainArtifacts (⟨out, POutcome.ok false⟩ :: l₂) = outNames out := by
        simp [chainArtifacts]
      rw [hstop]
      intro hmem2
      exact hdisj d.input_file hmem ((List.mem_append).mpr
        ((List.mem_append).mp hmem2))
    have hs := (hex d.input_file).not.mpr hnot
    exact Option.not_isSome_iff_eq_none.mp (by simpa using hs)

/-- Claim C6, witness: one producing pass succeeds, a checking pass
returns `False`, and the later producing pass's data column is `-`. -/
theorem c6_witness :
    invokedCount ([⟨some (.many [['a']]), .ok true⟩] ++
        ⟨none, .ok false⟩ :: [⟨some (.many [['b']]), .ok true⟩]) =
      [(⟨some (.many [['a']]), .ok true⟩ : PassRun)].length + 1 ∧
    gatherLoop (fun n => if n = ['a'] then some ['d'] else none)
        ([] ++ [⟨['b'], some ['B'], fun _ => (true, ['v'])⟩]) false =
      gatherLoop (fun n => if n = ['a'] then some ['d'] else none) [] false ++
        [(⟨['b'], some ['B'], fun _ => (true, ['v'])⟩ : DataPass)].map
          (fun _ => ['-']) := by
  apply c6_short_circuit_placeholders
  · intro p hp
    simp at hp
    rw [hp]
  · intro n
    by_cases h : n = ['a'] <;>
      simp [h, chainArtifacts, outNames, wrap_list]
  · intro d hd
    simp at hd
    rw [hd]
    simp [declaredOutputs, outNames, wrap_list]
  · intro n hn
    simp [declaredOutputs, outNames, wrap_list] at hn
    simp [declaredOutputs, outNames, wrap_list, hn]

/-- Claim C7: `_copy_and_merge` is idempotent — re-running it over its
own result reproduces that result — and it never overwrites an existing
target file: any file present in the target keeps its content. -/
theorem c7_merge_idempotent_never_overwrites (src : FSTree) (tgt : Option FSTree)
    (hsrc : Wf src) :
    mergeCopy src (some (mergeCopy src tgt)) = mergeCopy src tgt ∧
    (∀ t, tgt = some t → ∀ p c, getPath p t = some (.file c) →
      getPath p (mergeCopy src tgt) = some (.file c)) := by
  refine ⟨mergeCopy_self_absorb src hsrc tgt, ?_⟩
  intro t ht p c h
  subst ht
  exact mergeCopy_preserves_file src t p c h

/-- Claim C7, witness: merging a directory holding file `a` = `x` into a
target whose `a` holds `y` is idempotent and keeps `y`. -/
theorem c7_witness :
    mergeCopy (.dir [(['a'], .file ['x'])])
        (some (mergeCopy (.dir [(['a'], .file ['x'])])
          (some (.dir [(['a'], .file ['y'])])))) =
      mergeCopy (.dir [(['a'], .file ['x'])]) (some (.dir [(['a'], .file ['y'])])) ∧
    getPath [['a']]
        (mergeCopy (.dir [(['a'], .file ['x'])]) (some (.dir [(['a'], .file ['y'])]))) =
      some (.file ['y']) := by
  have hwf : Wf (FSTree.dir [(['a'], .file ['x'])]) := by
    refine Wf.dir _ (by simp) ?_
    intro q hq
    simp at hq
    rw [hq]
    exact Wf.file _
  have h := c7_merge_idempotent_never_overwrites (.dir [(['a'], .file ['x'])])
    (some (.dir [(['a'], .file ['y'])])) hwf
  refine ⟨h.1, ?_⟩
  refine h.2 _ rfl [['a']] ['y'] ?_
  simp [getPath, lookupName]

/-- Claim C8: a fault while handling one line is logged and the loop of
`test()` goes on with the subsequent lines, whereas a `TimeoutException`
(global deadline exceeded) stops handling at that line, is logged, and
aborts the whole run. -/
theorem c8_fault_isolated_timeout_aborts (l₁ l₂ : List LineOutcome)
    (h : LineOutcome.timeout ∉ l₁) :
    (testLoop (l₁ ++ .fault :: l₂)).handled = l₁ ++ .fault :: (testLoop l₂).handled ∧
    (testLoop (l₁ ++ .fault :: l₂)).logged =
      (testLoop l₁).logged + 1 + (testLoop l₂).logged ∧
    (testLoop (l₁ ++ .fault :: l₂)).aborted = (testLoop l₂).aborted ∧
    (testLoop (l₁ ++ .timeout :: l₂)).handled = l₁ ++ [.timeout] ∧
    (testLoop (l₁ ++ .timeout :: l₂)).aborted = true := by
  induction l₁ with
  | nil =>
    refine ⟨by simp [testLoop], by simp [testLoop]; omega, by simp [testLoop],
      by simp [testLoop], by simp [testLoop]⟩
  | cons o rest ih =>
    have hnr : LineOutcome.timeout ∉ rest := fun hm => h (List.mem_cons_of_mem _ hm)
    have ho : o ≠ .timeout := fun he => h (he ▸ List.mem_cons_self _ _)
    obtain ⟨h1, h2, h3, h4, h5⟩ := ih hnr
    cases o with
    | ok =>
      refine ⟨?_, ?_, ?_, ?_, ?_⟩
      all_goals simp [testLoop, h1, h2, h3, h4, h5]
    | fault =>
      refine ⟨?_, ?_, ?_, ?_, ?_⟩
      all_goals simp [testLoop, h1, h2, h3, h4, h5]
      all_goals omega
    | timeout => exact absurd rfl ho

/-- Claim C8, witness: a fault on the second of three lines leaves the
third handled; a timeout there stops the run. -/
theorem c8_witness :
    (testLoop ([.ok] ++ .fault :: [.ok])).handled =
      [.ok] ++ .fault :: (testLoop [.ok]).handled ∧
    (testLoop ([.ok] ++ .fault :: [.ok])).logged =
      (testLoop [.ok]).logged + 1 + (testLoop [.ok]).logged ∧
    (testLoop ([.ok] ++ .fault :: [.ok])).aborted = (testLoop [.ok]).aborted ∧
    (testLoop ([.ok] ++ .timeout :: [.ok])).handled = [.ok] ++ [.timeout] ∧
    (testLoop ([.ok] ++ .timeout :: [.ok])).aborted = true :=
  c8_fault_isolated_timeout_aborts [.ok] [.ok] (by decide)

/-- Claim C9: a producing pass declaring exactly one output name gets
the single opened handle itself as second argument (not a one-element
list), whether the declaration was a bare name or a singleton list,
while two or more declared names yield the list of opened handles in
declaration order. -/
theorem c9_single_handle_unwrapped (d : PyStr) :
    (∀ n, passSecondArg d (.many [n]) = .single (pyPathJoin d n)) ∧
    (∀ n, passSecondArg d (.single n) = .single (pyPathJoin d n)) ∧
    (∀ names, 2 ≤ names.length →
      passSecondArg d (.many names) = .many (names.map (pyPathJoin d))) := by
  refine ⟨fun n => rfl, fun n => rfl, fun names hlen => ?_⟩
  match names, hlen with
  | a :: b :: t2, _ => rfl

/-- Claim C9, witness: two declared names yield the two-element handle
list. -/
theorem c9_witness :
    passSecondArg ("out").data (.many [("a").data, ("b").data]) =
      .many ([("a").data, ("b").data].map (pyPathJoin ("out").data)) :=
  (c9_single_handle_unwrapped ("out").data).2.2 [("a").data, ("b").data] (by decide)

/-- Claim C10: a validated line containing the literal archive suffix
always takes the archive branch of `_handle_line`, which raises before
any materialization action: either the `_split` assertion fails, or the
two-argument call of the zero-argument `_handle_archive_entry` raises
`TypeError`; either way no analysis-area or output-area content is
produced for that line, and the resulting fault is of the kind `test()`
catches before continuing with the next line. -/
theorem c10_archive_entry_always_faults (cfg : EngineCfg) (ex : PyStr → Bool)
    (line : PyStr) (_hval : is_valid_entry line = true)
    (harch : (partitionArchive line).isSome = true) :
    handle_line cfg ex line = ([], true) := by
  obtain ⟨⟨l, r⟩, hp⟩ := Option.isSome_iff_exists.mp harch
  unfold handle_line pySplitArchive
  rw [hp]
  by_cases hr : r = [] || (1 < r.length && ['/'].isPrefixOf r)
  · simp only [hr, if_true]
    have hne : l ++ archiveSuf ≠ [] := by simp [archiveSuf]
    simp [hne]
  · simp [hr]

/-- Claim C10, witness: the valid line `x.tar.bz2` performs no
materialization and raises a caught fault. -/
theorem c10_witness :
    is_valid_entry ("x.tar.bz2").data = true ∧
    handle_line exampleCfg (fun _ => false) ("x.tar.bz2").data = ([], true) :=
  ⟨by decide,
    c10_archive_entry_always_faults exampleCfg (fun _ => false) ("x.tar.bz2").data
      (by decide) (by decide)⟩

end TP
